import Mathlib

/-!
Shallow embedding of `filter_plugins/config_comparison.py`: a network-device
configuration comparison module exposing three filters,
`extract_config_sections`, `normalize_config` and `compare_with_baseline`.

Configuration text is modelled as `List Char` (Python `str`); platform
identifiers (`network_os`) as `String`.  All functions are translated from
the Python source; the regular-expression extraction is modelled by a
matcher for the exact regex subset the source uses (a literal start keyword
followed by `.*` or `.*?` under DOTALL, the lazy form bounded by a lookahead
whose alternatives are literal/`[a-z]` sequences or end-of-string `\Z`).
-/

namespace ConfigComparison

/-! ### Python string primitives -/

/-- Python ASCII whitespace, the characters `str.strip()` / `str.split()`
treat as separators on the ASCII text this module handles. -/
def pyIsSpace (c : Char) : Bool :=
  c = ' ' || c = '\t' || c = '\n' || c = '\x0b' || c = '\x0c' || c = '\r'

/-- Python `str.strip()`: remove leading and trailing whitespace. -/
def pyStrip (l : List Char) : List Char :=
  (((l.dropWhile pyIsSpace).reverse.dropWhile pyIsSpace)).reverse

/-- Python `str.split('\n')`: split on every newline character; the result
is never empty (`"".split('\n') == [""]`). -/
def splitLines : List Char → List (List Char)
  | [] => [[]]
  | c :: rest =>
    if c = '\n' then [] :: splitLines rest
    else
      match splitLines rest with
      | [] => [[c]]
      | l :: ls => (c :: l) :: ls

/-- Python `'\n'.join(xs)`. -/
def joinNL : List (List Char) → List Char
  | [] => []
  | [x] => x
  | x :: xs => x ++ '\n' :: joinNL xs

/-- Python `line.startswith(c)` for a single-character argument. -/
def startsWithChar (l : List Char) (c : Char) : Bool :=
  match l with
  | [] => false
  | x :: _ => x = c

/-- First whitespace-delimited token of a line, or `[]` when the line has
no token: Python `line.split()[0] if line.split() else ""`. -/
def firstTok (l : List Char) : List Char :=
  (l.dropWhile pyIsSpace).takeWhile (fun c => !pyIsSpace c)

/-! ### normalize_config -/

/-- The retention test of `normalize_config`: Python
`if line and not line.startswith('!') and not line.startswith('#')`. -/
def keepLine (line : List Char) : Bool :=
  !line.isEmpty && !(startsWithChar line '!') && !(startsWithChar line '#')

/-- Python `normalize_config(config, network_os)`: split on newlines, strip each
line, keep the non-empty non-comment lines in order (`network_os` is
accepted but unused, as in the source). -/
def normalize_config (config : List Char) (network_os : String) : List (List Char) :=
  if config.isEmpty then []
  else
    (splitLines config).foldl
      (fun lines rawLine =>
        let line := pyStrip rawLine
        if keepLine line then lines ++ [line] else lines)
      []

/-- The normalizer as the spec words it: map `strip` over the split lines
and filter out empty/comment lines, preserving order. -/
def specNormalize (config : List Char) : List (List Char) :=
  ((splitLines config).map pyStrip).filter keepLine

/-! ### compare_with_baseline -/

/-- One entry of `different_configs`: a `{'baseline': ..., 'running': ...}`
pair. -/
structure DiffEntry where
  baseline : List Char
  running : List Char
deriving DecidableEq, Repr

/-- Python `_is_similar_config(baseline_line, running_line, network_os)`: two lines
are in the same command family when their first whitespace-delimited tokens
are equal; a token-less line contributes the empty token (`network_os` is
accepted but unused, as in the source). -/
def is_similar_config (baseline_line running_line : List Char) (network_os : String) : Bool :=
  firstTok baseline_line == firstTok running_line

/-- Python `_generate_summary(missing, extra, different)`: human-readable summary,
clauses joined by `"; "` (the `extra` argument is unused, as in the source). -/
def generate_summary (missing : List (List Char)) (extra : List (List Char))
    (different : List DiffEntry) : String :=
  let summary_parts : List String :=
    (if !missing.isEmpty
     then ["Missing " ++ toString missing.length ++ " baseline configuration(s)"]
     else [])
    ++
    (if !different.isEmpty
     then ["Found " ++ toString different.length ++ " configuration difference(s)"]
     else [])
  if summary_parts.isEmpty then "Configuration matches baseline"
  else String.intercalate "; " summary_parts

/-- The record returned by `compare_with_baseline`. -/
structure CompareResult where
  has_differences : Bool
  missing_configs : List (List Char)
  extra_configs : List (List Char)
  different_configs : List DiffEntry
  summary : String
deriving DecidableEq, Repr

/-- One iteration of the `for baseline_line in baseline_lines` loop of
`compare_with_baseline`, acting on the accumulated
`(missing_configs, different_configs)` pair. -/
def compareStep (running_config_lines : List (List Char)) (network_os : String)
    (acc : List (List Char) × List DiffEntry) (baseline_line : List Char) :
    List (List Char) × List DiffEntry :=
  if baseline_line ∈ running_config_lines then acc
  else
    match running_config_lines.find?
        (fun running_line => is_similar_config baseline_line running_line network_os) with
    | some running_line =>
      if baseline_line ≠ running_line
      then (acc.1, acc.2 ++ [⟨baseline_line, running_line⟩])
      else acc
    | none => (acc.1 ++ [baseline_line], acc.2)

/-- Python `compare_with_baseline(running_config_lines, baseline_lines, network_os)`:
for each baseline line, check exact membership in the running lines, fall
back to the first same-family running line, otherwise record it missing. -/
def compare_with_baseline (running_config_lines baseline_lines : List (List Char))
    (network_os : String) : CompareResult :=
  let res := baseline_lines.foldl (compareStep running_config_lines network_os) ([], [])
  { has_differences := !res.1.isEmpty || !res.2.isEmpty
    missing_configs := res.1
    extra_configs := []
    different_configs := res.2
    summary := generate_summary res.1 [] res.2 }

/-- Analysis form of the missing test: a baseline line ends up in
`missing_configs` exactly when it is not in the running lines and no running
line is in its command family. -/
def missingPred (running_config_lines : List (List Char)) (network_os : String)
    (l : List Char) : Bool :=
  !(decide (l ∈ running_config_lines)) &&
    (running_config_lines.find? (fun r => is_similar_config l r network_os)).isNone

/-- Analysis form of the different-pair test: the entry the baseline line
`l` contributes to `different_configs`, if any. -/
def diffEntryOf (running_config_lines : List (List Char)) (network_os : String)
    (l : List Char) : Option DiffEntry :=
  if l ∈ running_config_lines then none
  else
    match running_config_lines.find? (fun r => is_similar_config l r network_os) with
    | some r => if l ≠ r then some ⟨l, r⟩ else none
    | none => none

/-! ### Regex section extraction

The extraction patterns of the source all have the shape
`keyword.*` (greedy, which under `re.DOTALL` runs to the end of the text) or
`keyword.*?(?=A1|...|Ak|\Z)` (lazy, ending at the first position where one of
the lookahead alternatives, or end of text, matches).  Each lookahead
alternative is a sequence of literal characters and `[a-z]` classes. -/

/-- One lookahead atom: a literal character or the `[a-z]` class. -/
inductive LAtom where
  | lit (c : Char)
  | lower
deriving DecidableEq, Repr

/-- Whether an atom matches a character. -/
def atomMatch : LAtom → Char → Bool
  | .lit c, x => x = c
  | .lower, x => 'a' ≤ x && x ≤ 'z'

/-- Whether a sequence of atoms matches a leading segment of the text. -/
def matchAtoms : List LAtom → List Char → Bool
  | [], _ => true
  | _ :: _, [] => false
  | a :: as, c :: cs => atomMatch a c && matchAtoms as cs

/-- Whether the lookahead `(?=A1|...|Ak|\Z)` holds at position `j` of `s`. -/
def lookAt (s : List Char) (alts : List (List LAtom)) (j : Nat) : Bool :=
  decide (j = s.length) || alts.any (fun alt => matchAtoms alt (s.drop j))

/-- Whether the literal `pat` occurs in `s` at position `i`. -/
def occursAt (s pat : List Char) (i : Nat) : Bool :=
  pat.isPrefixOf (s.drop i)

/-- Leftmost position `≥ pos` at which the literal `pat` occurs in `s`. -/
def findOcc (s pat : List Char) (pos : Nat) : Option Nat :=
  (List.range (s.length + 1)).find? (fun i => pos ≤ i && occursAt s pat i)

/-- Smallest position `≥ j0` at which the lookahead holds (the `\Z`
alternative guarantees one at `s.length`). -/
def lazyEnd (s : List Char) (alts : List (List LAtom)) (j0 : Nat) : Option Nat :=
  (List.range (s.length + 1)).find? (fun j => j0 ≤ j && lookAt s alts j)

/-- One extraction pattern: a literal start keyword, then under DOTALL either
a greedy `.*` (`lazyLook = none`) or `.*?` bounded by a lookahead
(`lazyLook = some alts`, with `\Z` always an implicit final alternative). -/
structure Pat where
  startLit : List Char
  lazyLook : Option (List (List LAtom))

/-- Python `re.findall(pattern, s, re.MULTILINE | re.DOTALL)` for the pattern
shapes above: scan left to right, emit each leftmost match, continue at its
end.  `fuel` bounds the recursion; `s.length + 1` always suffices because
every start keyword in the tables is non-empty, so matches are non-empty. -/
def findallAux (p : Pat) (s : List Char) : Nat → Nat → List (List Char)
  | _, 0 => []
  | pos, fuel + 1 =>
    match findOcc s p.startLit pos with
    | none => []
    | some i =>
      match p.lazyLook with
      | none => (s.drop i) :: findallAux p s s.length fuel
      | some alts =>
        match lazyEnd s alts (i + p.startLit.length) with
        | none => []
        | some j => ((s.drop i).take (j - i)) :: findallAux p s j fuel

/-- All matches of one pattern in `s`, left to right. -/
def findall (p : Pat) (s : List Char) : List (List Char) :=
  findallAux p s 0 (s.length + 1)

/-- The `for pattern in patterns: ... if matches: extracted.extend(matches)`
loop shared by the three extraction helpers. -/
def runPatterns (pats : List Pat) (config : List Char) : List (List Char) :=
  pats.foldl
    (fun extracted p =>
      let ms := findall p config
      if !ms.isEmpty then extracted ++ ms else extracted)
    []

/-- Lookahead atoms for a literal string. -/
def litAtoms (s : List Char) : List LAtom :=
  s.map LAtom.lit

/-- The Cisco IOS pattern table (`_extract_cisco_sections`). -/
def ciscoPatterns : List Pat :=
  [ ⟨"service password-encryption".data, none⟩,
    ⟨"banner login".data, some [[.lit '\n', .lower], [.lit '\n', .lit '!']]⟩,
    ⟨"line con 0".data, some [litAtoms "\nline".data, [.lit '\n', .lower]]⟩,
    ⟨"line vty".data, some [litAtoms "\nline".data, [.lit '\n', .lower]]⟩,
    ⟨"snmp-server community".data, none⟩,
    ⟨"tacacs-server host".data, none⟩ ]

/-- The H3C Comware pattern table (`_extract_h3c_sections`). -/
def h3cPatterns : List Pat :=
  [ ⟨"header login".data, some [[.lit '\n', .lower], [.lit '\n', .lit '#']]⟩,
    ⟨"line aux".data, some [litAtoms "\nline".data, [.lit '\n', .lower]]⟩,
    ⟨"line vty".data, some [litAtoms "\nline".data, [.lit '\n', .lower]]⟩,
    ⟨"hwtacacs scheme".data, none⟩,
    ⟨"snmp-agent community".data, none⟩ ]

/-- The Huawei CE pattern table (`_extract_huawei_sections`). -/
def huaweiPatterns : List Pat :=
  [ ⟨"user-interface console".data, some [litAtoms "\nuser-interface".data, [.lit '\n', .lower]]⟩,
    ⟨"user-interface vty".data, some [litAtoms "\nuser-interface".data, [.lit '\n', .lower]]⟩,
    ⟨"hwtacacs-server".data, none⟩,
    ⟨"snmp-agent community".data, none⟩ ]

/-- Python `_extract_cisco_sections(config)`. -/
def extract_cisco_sections (config : List Char) : List Char :=
  if config.isEmpty then []
  else joinNL (runPatterns ciscoPatterns config)

/-- Python `_extract_h3c_sections(config)`. -/
def extract_h3c_sections (config : List Char) : List Char :=
  if config.isEmpty then []
  else joinNL (runPatterns h3cPatterns config)

/-- Python `_extract_huawei_sections(config)`. -/
def extract_huawei_sections (config : List Char) : List Char :=
  if config.isEmpty then []
  else joinNL (runPatterns huaweiPatterns config)

/-- Python `extract_config_sections(running_config, network_os)`: dispatch on the
platform tag, falling through to the unmodified input for unknown tags. -/
def extract_config_sections (running_config : List Char) (network_os : String) : List Char :=
  if network_os ∈ (["ios", "nxos", "eos"] : List String) then
    extract_cisco_sections running_config
  else if network_os = "comware" then
    extract_h3c_sections running_config
  else if network_os = "ce" then
    extract_huawei_sections running_config
  else
    running_config


/-! ### Helper lemmas: infixes and `splitLines` -/

lemma infix_of_nil (l : List Char) : ([] : List Char) <:+: l :=
  ⟨[], l, rfl⟩

lemma infix_cons_ext {l t : List Char} (c : Char) (h : l <:+: t) : l <:+: c :: t := by
  obtain ⟨u, v, huv⟩ := h
  exact ⟨c :: u, v, by rw [← huv]; rfl⟩

lemma infix_drop_take (s : List Char) (i k : Nat) : (s.drop i).take k <:+: s := by
  refine ⟨s.take i, (s.drop i).drop k, ?_⟩
  rw [List.append_assoc, List.take_append_drop, List.take_append_drop]

lemma infix_drop (s : List Char) (i : Nat) : s.drop i <:+: s := by
  refine ⟨s.take i, [], ?_⟩
  rw [List.append_nil, List.take_append_drop]

lemma splitLines_nil : splitLines [] = [[]] := rfl

lemma splitLines_cons_newline (r : List Char) :
    splitLines ('\n' :: r) = [] :: splitLines r := by
  simp [splitLines]

lemma splitLines_cons_of_ne (c : Char) (r : List Char) (hd : List Char)
    (tl : List (List Char)) (hc : c ≠ '\n') (h : splitLines r = hd :: tl) :
    splitLines (c :: r) = (c :: hd) :: tl := by
  rw [splitLines, if_neg hc, h]

lemma splitLines_strong (s : List Char) :
    ∃ hd tl, splitLines s = hd :: tl ∧ (∃ rest, hd ++ rest = s) ∧
      ∀ m ∈ tl, m <:+: s := by
  induction s with
  | nil => exact ⟨[], [], rfl, ⟨[], rfl⟩, by simp⟩
  | cons c r ih =>
    obtain ⟨hd, tl, heq, ⟨rest, hr⟩, htl⟩ := ih
    by_cases hc : c = '\n'
    · subst hc
      refine ⟨[], splitLines r, splitLines_cons_newline r, ⟨'\n' :: r, rfl⟩, ?_⟩
      intro m hm
      rw [heq, List.mem_cons] at hm
      rcases hm with rfl | hm
      · exact infix_cons_ext _ ⟨[], rest, by simpa using hr⟩
      · exact infix_cons_ext _ (htl m hm)
    · refine ⟨c :: hd, tl, splitLines_cons_of_ne c r hd tl hc heq,
        ⟨rest, by rw [← hr]; rfl⟩, ?_⟩
      intro m hm
      exact infix_cons_ext _ (htl m hm)

lemma mem_splitLines_isInfix {s l : List Char} (h : l ∈ splitLines s) : l <:+: s := by
  obtain ⟨hd, tl, heq, ⟨rest, hr⟩, htl⟩ := splitLines_strong s
  rw [heq, List.mem_cons] at h
  rcases h with rfl | h
  · exact ⟨[], rest, by simpa using hr⟩
  · exact htl l h

lemma splitLines_append_newline (a b : List Char) :
    splitLines (a ++ '\n' :: b) = splitLines a ++ splitLines b := by
  induction a with
  | nil => rw [List.nil_append, splitLines_cons_newline, splitLines_nil]; rfl
  | cons c a' ih =>
    obtain ⟨hd, tl, heq, -, -⟩ := splitLines_strong a'
    obtain ⟨hd2, tl2, heq2, -, -⟩ := splitLines_strong (a' ++ '\n' :: b)
    by_cases hc : c = '\n'
    · subst hc
      rw [List.cons_append, splitLines_cons_newline, splitLines_cons_newline, ih]
      rfl
    · rw [List.cons_append, splitLines_cons_of_ne c _ hd2 tl2 hc heq2,
        splitLines_cons_of_ne c _ hd tl hc heq]
      have : hd2 :: tl2 = splitLines a' ++ splitLines b := by rw [← heq2, ih]
      rw [heq] at this
      rw [List.cons_append] at this
      injection this with h1 h2
      rw [h1, h2]
      rfl

lemma splitLines_no_newline {s : List Char} : ∀ l ∈ splitLines s, '\n' ∉ l := by
  induction s with
  | nil =>
    intro l hl
    rw [splitLines_nil, List.mem_singleton] at hl
    simp [hl]
  | cons c r ih =>
    intro l hl
    by_cases hc : c = '\n'
    · subst hc
      rw [splitLines_cons_newline, List.mem_cons] at hl
      rcases hl with rfl | hl
      · simp
      · exact ih l hl
    · obtain ⟨hd, tl, heq, -, -⟩ := splitLines_strong r
      rw [splitLines_cons_of_ne c r hd tl hc heq, List.mem_cons] at hl
      rcases hl with rfl | hl
      · have hhd : '\n' ∉ hd := ih hd (by rw [heq]; exact List.mem_cons_self _ _)
        intro hmem
        rw [List.mem_cons] at hmem
        rcases hmem with h | h
        · exact hc h.symm
        · exact hhd h
      · exact ih l (by rw [heq]; exact List.mem_cons_of_mem _ hl)

lemma splitLines_of_no_newline {x : List Char} (h : '\n' ∉ x) : splitLines x = [x] := by
  induction x with
  | nil => rfl
  | cons c r ih =>
    have hc : c ≠ '\n' := fun e => h (e ▸ List.mem_cons_self c r)
    have hr : '\n' ∉ r := fun e => h (List.mem_cons_of_mem c e)
    obtain ⟨hd, tl, heq, -, -⟩ := splitLines_strong r
    rw [ih hr] at heq
    injection heq with h1 h2
    rw [splitLines_cons_of_ne c r hd tl hc (by rw [ih hr, h1, h2]), ← h1, ← h2]

lemma splitLines_joinNL : ∀ L : List (List Char), L ≠ [] → (∀ l ∈ L, '\n' ∉ l) →
    splitLines (joinNL L) = L := by
  intro L
  induction L with
  | nil => intro h; exact absurd rfl h
  | cons x L ih =>
    intro _ hnl
    cases L with
    | nil =>
      show splitLines (joinNL [x]) = [x]
      exact splitLines_of_no_newline (hnl x (List.mem_cons_self _ _))
    | cons y ys =>
      show splitLines (x ++ '\n' :: joinNL (y :: ys)) = x :: y :: ys
      rw [splitLines_append_newline,
        splitLines_of_no_newline (hnl x (List.mem_cons_self _ _)),
        ih (by simp) (fun l hl => hnl l (List.mem_cons_of_mem _ hl))]
      rfl

lemma mem_splitLines_joinNL : ∀ (L : List (List Char)) (l : List Char),
    l ∈ splitLines (joinNL L) → l = [] ∨ ∃ m ∈ L, l ∈ splitLines m := by
  intro L
  induction L with
  | nil =>
    intro l hl
    rw [show joinNL [] = [] from rfl, splitLines_nil, List.mem_singleton] at hl
    exact Or.inl hl
  | cons x L ih =>
    intro l hl
    cases L with
    | nil =>
      exact Or.inr ⟨x, List.mem_cons_self _ _, hl⟩
    | cons y ys =>
      have hmem : l ∈ splitLines x ++ splitLines (joinNL (y :: ys)) := by
        rw [← splitLines_append_newline]
        exact hl
      rcases List.mem_append.mp hmem with h | h
      · exact Or.inr ⟨x, List.mem_cons_self _ _, h⟩
      · rcases ih l h with h0 | ⟨m, hm, hlm⟩
        · exact Or.inl h0
        · exact Or.inr ⟨m, List.mem_cons_of_mem _ hm, hlm⟩

/-! ### Helper lemmas: the comparison loop -/

lemma compareStep_of_mem (r : List (List Char)) (os : String)
    (acc : List (List Char) × List DiffEntry) (l : List Char) (h : l ∈ r) :
    compareStep r os acc l = acc := by
  simp [compareStep, h]

lemma compareStep_of_find (r : List (List Char)) (os : String)
    (acc : List (List Char) × List DiffEntry) (l rl : List Char) (h : l ∉ r)
    (hf : r.find? (fun x => is_similar_config l x os) = some rl) :
    compareStep r os acc l = (acc.1, acc.2 ++ [⟨l, rl⟩]) := by
  have hne : l ≠ rl := fun e => h (e ▸ List.mem_of_find?_eq_some hf)
  simp [compareStep, h, hf, hne]

lemma compareStep_of_none (r : List (List Char)) (os : String)
    (acc : List (List Char) × List DiffEntry) (l : List Char) (h : l ∉ r)
    (hf : r.find? (fun x => is_similar_config l x os) = none) :
    compareStep r os acc l = (acc.1 ++ [l], acc.2) := by
  simp [compareStep, h, hf]

lemma missingPred_of_mem (r : List (List Char)) (os : String) (l : List Char)
    (h : l ∈ r) : missingPred r os l = false := by
  simp [missingPred, h]

lemma missingPred_of_find (r : List (List Char)) (os : String) (l rl : List Char)
    (hf : r.find? (fun x => is_similar_config l x os) = some rl) :
    missingPred r os l = false := by
  simp [missingPred, hf]

lemma missingPred_of_none (r : List (List Char)) (os : String) (l : List Char)
    (h : l ∉ r)
    (hf : r.find? (fun x => is_similar_config l x os) = none) :
    missingPred r os l = true := by
  simp [missingPred, h, hf]

lemma diffEntryOf_of_mem (r : List (List Char)) (os : String) (l : List Char)
    (h : l ∈ r) : diffEntryOf r os l = none := by
  simp [diffEntryOf, h]

lemma diffEntryOf_of_find (r : List (List Char)) (os : String) (l rl : List Char)
    (h : l ∉ r)
    (hf : r.find? (fun x => is_similar_config l x os) = some rl) :
    diffEntryOf r os l = some ⟨l, rl⟩ := by
  have hne : l ≠ rl := fun e => h (e ▸ List.mem_of_find?_eq_some hf)
  simp [diffEntryOf, h, hf, hne]

lemma diffEntryOf_of_none (r : List (List Char)) (os : String) (l : List Char)
    (h : l ∉ r)
    (hf : r.find? (fun x => is_similar_config l x os) = none) :
    diffEntryOf r os l = none := by
  simp [diffEntryOf, h, hf]

lemma diffEntryOf_baseline {r : List (List Char)} {os : String} {l : List Char}
    {e : DiffEntry} (h : diffEntryOf r os l = some e) : e.baseline = l := by
  unfold diffEntryOf at h
  by_cases hm : l ∈ r
  · rw [if_pos hm] at h; exact absurd h (by simp)
  · rw [if_neg hm] at h
    cases hf : r.find? (fun x => is_similar_config l x os) with
    | none => rw [hf] at h; exact absurd h (by simp)
    | some rl =>
      rw [hf] at h
      change (if l ≠ rl then some (DiffEntry.mk l rl) else none) = some e at h
      split_ifs at h with hne
      injection h with h'
      rw [← h']

lemma foldl_compareStep (r : List (List Char)) (os : String) :
    ∀ (b : List (List Char)) (m0 : List (List Char)) (d0 : List DiffEntry),
      b.foldl (compareStep r os) (m0, d0) =
        (m0 ++ b.filter (missingPred r os), d0 ++ b.filterMap (diffEntryOf r os)) := by
  intro b
  induction b with
  | nil => intro m0 d0; simp
  | cons l b ih =>
    intro m0 d0
    rw [List.foldl_cons, List.filter_cons, List.filterMap_cons]
    by_cases hm : l ∈ r
    · rw [compareStep_of_mem r os _ l hm, missingPred_of_mem r os l hm,
        diffEntryOf_of_mem r os l hm, ih]
      simp
    · cases hf : r.find? (fun x => is_similar_config l x os) with
      | some rl =>
        rw [compareStep_of_find r os _ l rl hm hf, missingPred_of_find r os l rl hf,
          diffEntryOf_of_find r os l rl hm hf, ih]
        simp
      | none =>
        rw [compareStep_of_none r os _ l hm hf, missingPred_of_none r os l hm hf,
          diffEntryOf_of_none r os l hm hf, ih]
        simp

lemma compare_eq (r b : List (List Char)) (os : String) :
    compare_with_baseline r b os =
      { has_differences := !(b.filter (missingPred r os)).isEmpty ||
          !(b.filterMap (diffEntryOf r os)).isEmpty
        missing_configs := b.filter (missingPred r os)
        extra_configs := []
        different_configs := b.filterMap (diffEntryOf r os)
        summary := generate_summary (b.filter (missingPred r os)) []
          (b.filterMap (diffEntryOf r os)) } := by
  unfold compare_with_baseline
  rw [foldl_compareStep r os b [] []]
  simp

/-! ### Helper lemmas: summary formatting -/

lemma generate_summary_missing_only (m e : List (List Char)) (hm : m ≠ []) :
    generate_summary m e [] =
      "Missing " ++ toString m.length ++ " baseline configuration(s)" := by
  have h : m.isEmpty = false := by cases m with | nil => exact absurd rfl hm | cons => rfl
  simp [generate_summary, h, String.intercalate, String.intercalate.go]

lemma generate_summary_different_only (m : List (List Char)) (d : List DiffEntry)
    (hd : d ≠ []) :
    generate_summary [] m d =
      "Found " ++ toString d.length ++ " configuration difference(s)" := by
  have h : d.isEmpty = false := by cases d with | nil => exact absurd rfl hd | cons => rfl
  simp [generate_summary, h, String.intercalate, String.intercalate.go]

lemma generate_summary_both (m e : List (List Char)) (d : List DiffEntry)
    (hm : m ≠ []) (hd : d ≠ []) :
    generate_summary m e d =
      ("Missing " ++ toString m.length ++ " baseline configuration(s)") ++ "; " ++
        ("Found " ++ toString d.length ++ " configuration difference(s)") := by
  have h1 : m.isEmpty = false := by cases m with | nil => exact absurd rfl hm | cons => rfl
  have h2 : d.isEmpty = false := by cases d with | nil => exact absurd rfl hd | cons => rfl
  simp [generate_summary, h1, h2, String.intercalate, String.intercalate.go]

/-! ### Helper lemmas: the normalizer -/

lemma foldl_keep (ls : List (List Char)) :
    ∀ acc : List (List Char),
      ls.foldl (fun lines rawLine =>
          let line := pyStrip rawLine
          if keepLine line then lines ++ [line] else lines) acc
        = acc ++ (ls.map pyStrip).filter keepLine := by
  induction ls with
  | nil => intro acc; simp
  | cons x ls ih =>
    intro acc
    rw [List.foldl_cons, List.map_cons, List.filter_cons]
    dsimp only
    by_cases h : keepLine (pyStrip x)
    · rw [if_pos h, if_pos h, ih]
      simp
    · rw [if_neg h, if_neg h, ih]

lemma normalize_config_eq_spec (config : List Char) (os : String) :
    normalize_config config os = specNormalize config := by
  unfold normalize_config
  by_cases h : config.isEmpty
  · rw [if_pos h, List.isEmpty_iff] at *
    rw [h]
    rfl
  · rw [if_neg h, foldl_keep, List.nil_append]
    rfl

/-! ### Helper lemmas: stripping -/

lemma dropWhile_dropWhile (p : Char → Bool) (l : List Char) :
    (l.dropWhile p).dropWhile p = l.dropWhile p := by
  induction l with
  | nil => rfl
  | cons a t ih =>
    by_cases h : p a
    · simp [List.dropWhile_cons, h, ih]
    · simp [List.dropWhile_cons, h]

lemma head_not_of_dropWhile_self {p : Char → Bool} {a : Char} {t : List Char}
    (h : (a :: t).dropWhile p = a :: t) : p a = false := by
  by_cases hp : p a
  · exfalso
    rw [List.dropWhile_cons_of_pos hp] at h
    have hle := (List.dropWhile_suffix p (l := t)).length_le
    rw [h] at hle
    simp at hle
  · exact Bool.eq_false_iff.mpr hp

lemma pyStrip_idem (l : List Char) : pyStrip (pyStrip l) = pyStrip l := by
  unfold pyStrip
  set m := l.dropWhile pyIsSpace with hm
  set n := m.reverse.dropWhile pyIsSpace with hn
  have hmm : m.dropWhile pyIsSpace = m := by rw [hm]; exact dropWhile_dropWhile _ _
  have hnn : n.dropWhile pyIsSpace = n := by rw [hn]; exact dropWhile_dropWhile _ _
  rcases hne : n.reverse with _ | ⟨a, u⟩
  · simp [hne]
  · obtain ⟨s, hs⟩ : n <:+ m.reverse := hn ▸ List.dropWhile_suffix pyIsSpace
    have hmrev : m = n.reverse ++ s.reverse := by
      have : m.reverse.reverse = (s ++ n).reverse := by rw [hs]
      rw [List.reverse_reverse, List.reverse_append] at this
      exact this
    have hcons : m = a :: (u ++ s.reverse) := by rw [hmrev, hne]; rfl
    have hpa : pyIsSpace a = false := by
      apply head_not_of_dropWhile_self (t := u ++ s.reverse)
      rw [← hcons]
      exact hmm
    have h1 : (a :: u).dropWhile pyIsSpace = a :: u :=
      List.dropWhile_cons_of_neg (by simp [hpa])
    rw [h1, show (a :: u).reverse = n by rw [← hne, List.reverse_reverse], hnn]
    exact hne

lemma mem_pyStrip {a : Char} {l : List Char} (h : a ∈ pyStrip l) : a ∈ l := by
  unfold pyStrip at h
  rw [List.mem_reverse] at h
  have h2 := (List.dropWhile_suffix pyIsSpace).subset h
  rw [List.mem_reverse] at h2
  exact (List.dropWhile_suffix pyIsSpace).subset h2

lemma ne_nil_of_keepLine {l : List Char} (h : keepLine l = true) : l ≠ [] := by
  intro e
  subst e
  simp [keepLine] at h

lemma mem_specNormalize {l c : List Char} (h : l ∈ specNormalize c) :
    keepLine l = true ∧ ∃ raw ∈ splitLines c, l = pyStrip raw := by
  unfold specNormalize at h
  rw [List.mem_filter] at h
  obtain ⟨h1, h2⟩ := h
  rw [List.mem_map] at h1
  obtain ⟨raw, hraw, he⟩ := h1
  exact ⟨h2, raw, hraw, he.symm⟩

lemma specNormalize_joinNL (L : List (List Char))
    (hk : ∀ l ∈ L, keepLine l = true)
    (hs : ∀ l ∈ L, pyStrip l = l)
    (hn : ∀ l ∈ L, '\n' ∉ l) :
    specNormalize (joinNL L) = L := by
  cases L with
  | nil => rfl
  | cons x xs =>
    have hsplit : splitLines (joinNL (x :: xs)) = x :: xs :=
      splitLines_joinNL _ (by simp) hn
    unfold specNormalize
    rw [hsplit]
    rw [show (x :: xs).map pyStrip = (x :: xs).map id from List.map_congr_left hs,
      List.map_id, List.filter_eq_self.mpr hk]

/-! ### Helper lemmas: the extraction matcher -/

lemma findallAux_isInfix (p : Pat) (s : List Char) :
    ∀ (fuel pos : Nat), ∀ m ∈ findallAux p s pos fuel, m <:+: s := by
  intro fuel
  induction fuel with
  | zero =>
    intro pos m hm
    simp [findallAux] at hm
  | succ fuel ih =>
    intro pos m hm
    cases hocc : findOcc s p.startLit pos with
    | none =>
      simp only [findallAux, hocc] at hm
      exact absurd hm (List.not_mem_nil m)
    | some i =>
      cases hlook : p.lazyLook with
      | none =>
        simp only [findallAux, hocc, hlook, List.mem_cons] at hm
        rcases hm with rfl | hm
        · exact infix_drop s i
        · exact ih s.length m hm
      | some alts =>
        cases hend : lazyEnd s alts (i + p.startLit.length) with
        | none =>
          simp only [findallAux, hocc, hlook, hend] at hm
          exact absurd hm (List.not_mem_nil m)
        | some j =>
          simp only [findallAux, hocc, hlook, hend, List.mem_cons] at hm
          rcases hm with rfl | hm
          · exact infix_drop_take s i (j - i)
          · exact ih j m hm

lemma findall_isInfix (p : Pat) (s : List Char) : ∀ m ∈ findall p s, m <:+: s := by
  intro m hm
  exact findallAux_isInfix p s (s.length + 1) 0 m hm

lemma runPatterns_isInfix (pats : List Pat) (config : List Char) :
    ∀ m ∈ runPatterns pats config, m <:+: config := by
  suffices h : ∀ (ps : List Pat) (acc : List (List Char)),
      (∀ x ∈ acc, x <:+: config) →
      ∀ m ∈ ps.foldl
        (fun extracted p =>
          let ms := findall p config
          if !ms.isEmpty then extracted ++ ms else extracted) acc,
        m <:+: config by
    intro m hm
    unfold runPatterns at hm
    exact h pats [] (by simp) m hm
  intro ps
  induction ps with
  | nil =>
    intro acc hacc m hm
    rw [List.foldl_nil] at hm
    exact hacc m hm
  | cons p ps ih =>
    intro acc hacc m hm
    rw [List.foldl_cons] at hm
    refine ih _ ?_ m hm
    intro x hx
    dsimp only at hx
    by_cases he : (findall p config).isEmpty
    · rw [List.isEmpty_iff] at he
      rw [he] at hx
      simp at hx
      exact hacc x hx
    · have he' : (findall p config).isEmpty = false := Bool.eq_false_iff.mpr he
      rw [he'] at hx
      simp at hx
      rcases hx with h1 | h1
      · exact hacc x h1
      · exact findall_isInfix p config x h1

lemma extract_table_lines (pats : List Pat) (config : List Char) :
    ∀ line ∈ splitLines (if config.isEmpty then [] else joinNL (runPatterns pats config)),
      line <:+: config := by
  by_cases h : config.isEmpty
  · rw [if_pos h]
    intro line hl
    rw [splitLines_nil, List.mem_singleton] at hl
    subst hl
    exact infix_of_nil config
  · rw [if_neg h]
    intro line hl
    rcases mem_splitLines_joinNL _ _ hl with rfl | ⟨m, hm, hlm⟩
    · exact infix_of_nil config
    · exact (mem_splitLines_isInfix hlm).trans (runPatterns_isInfix pats config m hm)

/-! ### Claim theorems -/

/-- C1: for every baseline line sequence and every running line sequence,
`compare_with_baseline` places each baseline line in exactly one of three
outcomes: satisfied by an exact match (producing no output entry), recorded
as a baseline/running pair in `different_configs`, or listed in
`missing_configs`; no baseline line ever appears in more than one of these
outcomes. -/
theorem compare_places_each_baseline_line_once
    (r b : List (List Char)) (os : String) (line : List Char) (hline : line ∈ b) :
    (line ∈ r ∧ line ∉ (compare_with_baseline r b os).missing_configs ∧
      ∀ e ∈ (compare_with_baseline r b os).different_configs, e.baseline ≠ line) ∨
    (line ∉ r ∧
      (∃ e ∈ (compare_with_baseline r b os).different_configs, e.baseline = line) ∧
      line ∉ (compare_with_baseline r b os).missing_configs) ∨
    (line ∉ r ∧ line ∈ (compare_with_baseline r b os).missing_configs ∧
      ∀ e ∈ (compare_with_baseline r b os).different_configs, e.baseline ≠ line) := by
  rw [compare_eq]
  dsimp only
  by_cases hmem : line ∈ r
  · left
    refine ⟨hmem, ?_, ?_⟩
    · intro hin
      rw [List.mem_filter, missingPred_of_mem r os line hmem] at hin
      exact absurd hin.2 (by simp)
    · intro e he hbl
      rw [List.mem_filterMap] at he
      obtain ⟨a, _, hae⟩ := he
      have haline : a = line := by rw [← hbl, diffEntryOf_baseline hae]
      subst haline
      rw [diffEntryOf_of_mem r os a hmem] at hae
      exact absurd hae (by simp)
  · cases hf : r.find? (fun x => is_similar_config line x os) with
    | some rl =>
      right; left
      refine ⟨hmem, ⟨⟨line, rl⟩, ?_, rfl⟩, ?_⟩
      · rw [List.mem_filterMap]
        exact ⟨line, hline, diffEntryOf_of_find r os line rl hmem hf⟩
      · intro hin
        rw [List.mem_filter, missingPred_of_find r os line rl hf] at hin
        exact absurd hin.2 (by simp)
    | none =>
      right; right
      refine ⟨hmem, ?_, ?_⟩
      · rw [List.mem_filter]
        exact ⟨hline, missingPred_of_none r os line hmem hf⟩
      · intro e he hbl
        rw [List.mem_filterMap] at he
        obtain ⟨a, _, hae⟩ := he
        have haline : a = line := by rw [← hbl, diffEntryOf_baseline hae]
        subst haline
        rw [diffEntryOf_of_none r os a hmem hf] at hae
        exact absurd hae (by simp)

/-- Witness for C1 at a concrete input: the baseline line `"a"` with empty
running lines lands in `missing_configs`. -/
theorem compare_places_each_baseline_line_once_witness :
    "a".data ∈ (["a".data] : List (List Char)) ∧
    "a".data ∈ (compare_with_baseline [] ["a".data] "ios").missing_configs := by
  have h : "a".data ∈ (["a".data] : List (List Char)) := by decide
  refine ⟨h, ?_⟩
  rcases compare_places_each_baseline_line_once [] ["a".data] "ios" "a".data h with
    ⟨hmem, -, -⟩ | ⟨-, hex, -⟩ | ⟨-, hin, -⟩
  · exact absurd hmem (by decide)
  · obtain ⟨e, he, -⟩ := hex
    have hd : (compare_with_baseline [] ["a".data] "ios").different_configs = [] := by
      decide
    rw [hd] at he
    exact absurd he (List.not_mem_nil e)
  · exact hin

/-- C2: for every input configuration text and every platform, each line of
the text returned by `extract_config_sections` is a verbatim contiguous
substring of the input text. -/
theorem extract_lines_verbatim (config : List Char) (os : String) :
    ∀ line ∈ splitLines (extract_config_sections config os), line <:+: config := by
  unfold extract_config_sections
  by_cases h1 : os ∈ (["ios", "nxos", "eos"] : List String)
  · rw [if_pos h1]
    unfold extract_cisco_sections
    exact extract_table_lines _ _
  · rw [if_neg h1]
    by_cases h2 : os = "comware"
    · rw [if_pos h2]
      unfold extract_h3c_sections
      exact extract_table_lines _ _
    · rw [if_neg h2]
      by_cases h3 : os = "ce"
      · rw [if_pos h3]
        unfold extract_huawei_sections
        exact extract_table_lines _ _
      · rw [if_neg h3]
        intro line hl
        exact mem_splitLines_isInfix hl

/-- Witness for C2 at a concrete input: the single line extracted from a
Cisco SNMP community stanza is an infix of the input. -/
theorem extract_lines_verbatim_witness :
    "snmp-server community x".data ∈
      splitLines (extract_config_sections "snmp-server community x".data "ios") ∧
    "snmp-server community x".data <:+: "snmp-server community x".data := by
  have h : "snmp-server community x".data ∈
      splitLines (extract_config_sections "snmp-server community x".data "ios") := by
    decide
  exact ⟨h, extract_lines_verbatim _ _ _ h⟩

/-- C3: `normalize_config` is idempotent: normalizing the newline-join of
the lines of `normalize_config config os` yields the same line sequence. -/
theorem normalize_idempotent (config : List Char) (os : String) :
    normalize_config (joinNL (normalize_config config os)) os =
      normalize_config config os := by
  simp only [normalize_config_eq_spec]
  refine specNormalize_joinNL _ (fun l hl => (mem_specNormalize hl).1) ?_ ?_
  · intro l hl
    obtain ⟨-, raw, -, he⟩ := mem_specNormalize hl
    rw [he, pyStrip_idem]
  · intro l hl
    obtain ⟨-, raw, hraw, he⟩ := mem_specNormalize hl
    intro hmem
    exact splitLines_no_newline raw hraw (mem_pyStrip (he ▸ hmem))

/-- C4: `normalize_config` splits on line breaks, strips each line, discards
lines that are empty after stripping or start with `!` or `#`, and returns
the remaining lines, trimmed, in their original relative order. -/
theorem normalize_matches_spec (config : List Char) (os : String) :
    normalize_config config os = ((splitLines config).map pyStrip).filter keepLine :=
  normalize_config_eq_spec config os

/-- C5: the summary of `compare_with_baseline` is built exactly as: the
missing clause when `missing_configs` is non-empty, then the difference
clause when `different_configs` is non-empty, joined by `"; "`, and the
literal `"Configuration matches baseline"` when both lists are empty. -/
theorem summary_format (r b : List (List Char)) (os : String) :
    ((compare_with_baseline r b os).missing_configs = [] →
      (compare_with_baseline r b os).different_configs = [] →
      (compare_with_baseline r b os).summary = "Configuration matches baseline") ∧
    ((compare_with_baseline r b os).missing_configs ≠ [] →
      (compare_with_baseline r b os).different_configs = [] →
      (compare_with_baseline r b os).summary =
        "Missing " ++ toString (compare_with_baseline r b os).missing_configs.length ++
          " baseline configuration(s)") ∧
    ((compare_with_baseline r b os).missing_configs = [] →
      (compare_with_baseline r b os).different_configs ≠ [] →
      (compare_with_baseline r b os).summary =
        "Found " ++ toString (compare_with_baseline r b os).different_configs.length ++
          " configuration difference(s)") ∧
    ((compare_with_baseline r b os).missing_configs ≠ [] →
      (compare_with_baseline r b os).different_configs ≠ [] →
      (compare_with_baseline r b os).summary =
        ("Missing " ++ toString (compare_with_baseline r b os).missing_configs.length ++
          " baseline configuration(s)") ++ "; " ++
        ("Found " ++ toString (compare_with_baseline r b os).different_configs.length ++
          " configuration difference(s)")) := by
  have hs : (compare_with_baseline r b os).summary =
      generate_summary (compare_with_baseline r b os).missing_configs []
        (compare_with_baseline r b os).different_configs := rfl
  refine ⟨?_, ?_, ?_, ?_⟩ <;> intro h1 h2
  · rw [hs, h1, h2]
    rfl
  · rw [hs, h2]
    exact generate_summary_missing_only _ [] h1
  · rw [hs, h1]
    exact generate_summary_different_only [] _ h2
  · rw [hs]
    exact generate_summary_both _ [] _ h1 h2

/-- Witness for C5 at a concrete input: one missing baseline line and no
different pair produce the missing clause alone. -/
theorem summary_format_witness :
    (compare_with_baseline [] ["a".data] "ios").missing_configs ≠ [] ∧
    (compare_with_baseline [] ["a".data] "ios").different_configs = [] ∧
    (compare_with_baseline [] ["a".data] "ios").summary =
      "Missing " ++
        toString (compare_with_baseline [] ["a".data] "ios").missing_configs.length ++
        " baseline configuration(s)" := by
  have h1 : (compare_with_baseline [] ["a".data] "ios").missing_configs ≠ [] := by decide
  have h2 : (compare_with_baseline [] ["a".data] "ios").different_configs = [] := by decide
  exact ⟨h1, h2, (summary_format [] ["a".data] "ios").2.1 h1 h2⟩

/-- C6: `extract_config_sections` applied to empty text returns empty text
for every supported platform identifier (ios, nxos, eos, comware, ce), and
for every other platform identifier it returns the input unchanged. -/
theorem extract_empty_and_unknown_passthrough :
    (extract_config_sections [] "ios" = [] ∧ extract_config_sections [] "nxos" = [] ∧
     extract_config_sections [] "eos" = [] ∧ extract_config_sections [] "comware" = [] ∧
     extract_config_sections [] "ce" = []) ∧
    ∀ (config : List Char) (os : String),
      os ∉ (["ios", "nxos", "eos", "comware", "ce"] : List String) →
      extract_config_sections config os = config := by
  constructor
  · exact ⟨rfl, rfl, rfl, rfl, rfl⟩
  · intro config os h
    simp only [List.mem_cons, List.not_mem_nil, or_false, not_or] at h
    obtain ⟨h1, h2, h3, h4, h5⟩ := h
    unfold extract_config_sections
    rw [if_neg (by simp [h1, h2, h3]), if_neg h4, if_neg h5]

/-- Witness for C6 at a concrete input: an unknown platform passes the
non-empty input through unchanged. -/
theorem extract_unknown_passthrough_witness :
    ("junos" ∉ (["ios", "nxos", "eos", "comware", "ce"] : List String)) ∧
    extract_config_sections "abc".data "junos" = "abc".data := by
  have h : "junos" ∉ (["ios", "nxos", "eos", "comware", "ce"] : List String) := by decide
  exact ⟨h, extract_empty_and_unknown_passthrough.2 "abc".data "junos" h⟩

/-- C7: the `extra_configs` field of `compare_with_baseline` is the empty
list for every input. -/
theorem extra_configs_always_empty (r b : List (List Char)) (os : String) :
    (compare_with_baseline r b os).extra_configs = [] :=
  rfl

/-- C8: the family-match check degrades gracefully on token-less lines: a
whitespace-only (or empty) line has an empty leading token, and
`_is_similar_config` reports it similar to another line exactly when that
line is also token-less; the check is a total function and never raises. -/
theorem similar_config_tokenless_graceful (b r : List Char) (os : String)
    (h : ∀ c ∈ b, pyIsSpace c = true) :
    firstTok b = [] ∧ (is_similar_config b r os = true ↔ firstTok r = []) := by
  have hb : firstTok b = [] := by
    unfold firstTok
    rw [List.dropWhile_eq_nil_iff.mpr h]
    rfl
  refine ⟨hb, ?_⟩
  unfold is_similar_config
  rw [hb]
  constructor
  · intro he
    exact (eq_of_beq he).symm
  · intro he
    rw [he]
    rfl

/-- Witness for C8 at a concrete input: a whitespace-only line is similar
exactly to other token-less lines. -/
theorem similar_config_tokenless_witness :
    (∀ c ∈ ("  ".data : List Char), pyIsSpace c = true) ∧
    (firstTok "  ".data = [] ∧
      (is_similar_config "  ".data "\t".data "ios" = true ↔ firstTok "\t".data = [])) := by
  have h : ∀ c ∈ ("  ".data : List Char), pyIsSpace c = true := by decide
  exact ⟨h, similar_config_tokenless_graceful _ "\t".data "ios" h⟩

/-- C9: the `network_os` argument does not influence normalization or
comparison: any two platform identifiers give identical results. -/
theorem network_os_noninterference (config : List Char) (r b : List (List Char))
    (os1 os2 : String) :
    normalize_config config os1 = normalize_config config os2 ∧
    compare_with_baseline r b os1 = compare_with_baseline r b os2 :=
  ⟨rfl, rfl⟩

/-- C10: `compare_with_baseline` never consumes running lines: each baseline
line is resolved against the full running sequence independently, and the
same running line can appear as the partner of several baseline lines in
`different_configs` within one call. -/
theorem running_lines_not_consumed :
    (∀ (r b : List (List Char)) (os : String),
      (compare_with_baseline r b os).different_configs =
        b.filterMap (diffEntryOf r os)) ∧
    (compare_with_baseline ["x 1".data] ["x 2".data, "x 3".data] "ios").different_configs =
      [⟨"x 2".data, "x 1".data⟩, ⟨"x 3".data, "x 1".data⟩] := by
  constructor
  · intro r b os
    rw [compare_eq]
  · decide

end ConfigComparison
